import Mathlib

/-!
# Task Analytics Engine — verification of the GHMonitoring task processor

Shallow embedding of `src/backend/src/services/task-processor.ts` and the
task data model of `src/types/task.ts`. JavaScript `Date` values are
modelled as `Int` epoch milliseconds; the truncation
`new Date(d.getFullYear(), d.getMonth(), d.getDate())` is modelled as
flooring the timestamp to its calendar-day boundary (a fixed timezone
offset of zero; the repository leaves the timezone ambient). The ambient
clock `new Date()` read inside `isOverdue` is modelled as an explicit
`now : Int` parameter threaded through `calculateStats`.
-/

namespace GHMonitoring

/-- `state: 'OPEN' | 'CLOSED' | 'MERGED'` from `src/types/task.ts`. -/
inductive TaskState
  | OPEN
  | CLOSED
  | MERGED
deriving DecidableEq, Repr

/-- `type: 'ISSUE' | 'PULL_REQUEST' | 'DRAFT_ISSUE'` from `src/types/task.ts`. -/
inductive TaskType
  | ISSUE
  | PULL_REQUEST
  | DRAFT_ISSUE
deriving DecidableEq, Repr

/-- The `Task` interface of `src/types/task.ts`. Dates are epoch
milliseconds (`Int`); optional fields are `Option`. -/
structure Task where
  id : String
  githubId : String
  title : String
  number : Nat
  type : TaskType
  state : TaskState
  status : Option String
  repository : Option String
  assignees : List String
  priority : Option String
  createdAt : Int
  updatedAt : Int
  dueDate : Option Int
  addedToProjectAt : Option Int
deriving DecidableEq, Repr

/-- Milliseconds in one day. -/
def msPerDay : Int := 86400000

/-- Index of the calendar day containing an epoch-millisecond instant
(floor division, so instants before the epoch land on negative days). -/
def dayIndex (t : Int) : Int := Int.fdiv t msPerDay

/-- `new Date(d.getFullYear(), d.getMonth(), d.getDate())` — the instant
truncated to the start of its calendar day. -/
def startOfDay (t : Int) : Int := msPerDay * dayIndex t

/-- `TaskProcessorService.isOverdue`.  The TypeScript reads `new Date()`
from the system clock; that reading is the `now` parameter here. -/
def isOverdue (now : Int) (task : Task) : Bool :=
  match task.dueDate with
  | none => false
  | some due =>
    if task.state = TaskState.CLOSED ∨ task.state = TaskState.MERGED then false
    else decide (startOfDay due ≤ startOfDay now)

/-- JavaScript `String.prototype.toUpperCase`, modelled character-wise
(the repository only compares against the ASCII tokens "P0"/"P1"). -/
def jsToUpper (s : String) : String := String.mk (s.data.map Char.toUpper)

/-- The filter `(t) => t.priority?.toUpperCase() === 'P0'` used for the
no-ETA-by-priority split (optional chaining yields `false` on an absent
priority). -/
def noETAP0 (t : Task) : Bool :=
  match t.priority with
  | none => false
  | some s => jsToUpper s == "P0"

/-- The filter `(t) => t.priority?.toUpperCase() === 'P1'` used for the
no-ETA-by-priority split. -/
def noETAP1 (t : Task) : Bool :=
  match t.priority with
  | none => false
  | some s => jsToUpper s == "P1"

/-- The filter `(t) => !t.priority || (t.priority.toUpperCase() !== 'P0' &&
t.priority.toUpperCase() !== 'P1')` used for the no-ETA-by-priority split;
`!t.priority` is also true of the empty string (JavaScript falsiness). -/
def noETANoPriority (t : Task) : Bool :=
  match t.priority with
  | none => true
  | some s => s == "" || (!(jsToUpper s == "P0") && !(jsToUpper s == "P1"))

/-- The filter `(t) => t.priority?.toUpperCase() === 'P0'` as written a
second time for the unassigned-by-priority split (the source repeats the
lambda rather than sharing a function). -/
def unassignedP0 (t : Task) : Bool :=
  match t.priority with
  | none => false
  | some s => jsToUpper s == "P0"

/-- The unassigned-split copy of the `'P1'` filter. -/
def unassignedP1 (t : Task) : Bool :=
  match t.priority with
  | none => false
  | some s => jsToUpper s == "P1"

/-- The unassigned-split copy of the no-priority filter. -/
def unassignedNoPriority (t : Task) : Bool :=
  match t.priority with
  | none => true
  | some s => s == "" || (!(jsToUpper s == "P0") && !(jsToUpper s == "P1"))

/-- The `p0/p1/noPriority` count-and-list block that `TaskStats` nests twice. -/
structure PrioritySplit where
  p0 : Nat
  p1 : Nat
  noPriority : Nat
  p0List : List Task
  p1List : List Task
  noPriorityList : List Task
deriving DecidableEq, Repr

/-- The `TaskStats` interface of `src/types/task.ts`. -/
structure TaskStats where
  total : Nat
  «open» : Nat
  closed : Nat
  overdue : Nat
  overdueList : List Task
  noTechHandoffETA : Nat
  noTechHandoffETAList : List Task
  noTechHandoffETAByPriority : PrioritySplit
  unassignedByPriority : PrioritySplit
deriving DecidableEq, Repr

/-- `TaskProcessorService.calculateStats`, with the ambient clock reading of
`isOverdue` made the explicit `now` parameter. -/
def calculateStats (now : Int) (tasks : List Task) : TaskStats :=
  let total := tasks.length
  let openCount := (tasks.filter (fun t => t.state == TaskState.OPEN)).length
  let closedCount :=
    (tasks.filter (fun t => t.state == TaskState.CLOSED || t.state == TaskState.MERGED)).length
  let overdueList := tasks.filter (fun t => isOverdue now t)
  let overdue := overdueList.length
  let noTechHandoffETAList :=
    tasks.filter (fun t => t.state == TaskState.OPEN && t.dueDate.isNone)
  let noTechHandoffETA := noTechHandoffETAList.length
  let noETAP0List := noTechHandoffETAList.filter noETAP0
  let noETAP1List := noTechHandoffETAList.filter noETAP1
  let noETANoPriorityList := noTechHandoffETAList.filter noETANoPriority
  let unassignedTasks :=
    tasks.filter (fun t => t.state == TaskState.OPEN && t.assignees.length == 0)
  let p0List := unassignedTasks.filter unassignedP0
  let p1List := unassignedTasks.filter unassignedP1
  let noPriorityList := unassignedTasks.filter unassignedNoPriority
  { total := total
    «open» := openCount
    closed := closedCount
    overdue := overdue
    overdueList := overdueList
    noTechHandoffETA := noTechHandoffETA
    noTechHandoffETAList := noTechHandoffETAList
    noTechHandoffETAByPriority :=
      { p0 := noETAP0List.length
        p1 := noETAP1List.length
        noPriority := noETANoPriorityList.length
        p0List := noETAP0List
        p1List := noETAP1List
        noPriorityList := noETANoPriorityList }
    unassignedByPriority :=
      { p0 := p0List.length
        p1 := p1List.length
        noPriority := noPriorityList.length
        p0List := p0List
        p1List := p1List
        noPriorityList := noPriorityList } }

/-- The three-way priority classification of spec §4.2.
Modelled from the spec: one shared bucket function — case-insensitive
comparison of the priority string against the literal tokens "P0" and "P1";
absent priority or any other value maps to `NO_PRIORITY`. -/
inductive PriorityBucket
  | P0
  | P1
  | NO_PRIORITY
deriving DecidableEq, Repr

/-- Modelled from the spec: the shared classification function of §4.2
("classify a Task's priority field into exactly one of {P0, P1,
NO_PRIORITY}; case-insensitive comparison against the literal tokens
\"P0\" and \"P1\"; absent priority, or any value other than P0/P1, maps
to NO_PRIORITY"). -/
def specPriorityBucket (priority : Option String) : PriorityBucket :=
  match priority with
  | none => PriorityBucket.NO_PRIORITY
  | some s =>
    if jsToUpper s = "P0" then PriorityBucket.P0
    else if jsToUpper s = "P1" then PriorityBucket.P1
    else PriorityBucket.NO_PRIORITY

/-- The bucket a task falls into in the no-ETA-by-priority split, read off
from the code's three filters. -/
def noETABucket (t : Task) : PriorityBucket :=
  if noETAP0 t then PriorityBucket.P0
  else if noETAP1 t then PriorityBucket.P1
  else PriorityBucket.NO_PRIORITY

/-- The bucket a task falls into in the unassigned-by-priority split, read
off from the code's three (textually repeated) filters. -/
def unassignedBucket (t : Task) : PriorityBucket :=
  if unassignedP0 t then PriorityBucket.P0
  else if unassignedP1 t then PriorityBucket.P1
  else PriorityBucket.NO_PRIORITY

/-- The comparator passed to `Array.prototype.sort` by
`TaskProcessorService.sortByDueDate`: both undated compare equal, an
undated task sorts after anything dated, and two dated tasks compare by
the (possibly negated) difference of their timestamps. -/
def dueCmp (ascending : Bool) (a b : Task) : Int :=
  match a.dueDate, b.dueDate with
  | none, none => 0
  | none, some _ => 1
  | some _, none => -1
  | some x, some y => if ascending then x - y else -(x - y)

/-- `TaskProcessorService.sortByDueDate`.  ECMAScript `sort` is a stable
sort by the comparator; `[...tasks]` copies, so the input is untouched —
both are inherent in this embedding as a stable insertion sort. The
source defaults `ascending` to `true`. -/
def sortByDueDate (tasks : List Task) (ascending : Bool := true) : List Task :=
  List.insertionSort (fun a b => dueCmp ascending a b ≤ 0) tasks

/-- One `grouped.get(key)!.push(task)` step on a JavaScript `Map`
(modelled as an insertion-ordered association list): an existing key keeps
its position and gains the task at the end of its list; a missing key is
appended with a singleton list, as `grouped.set(key, [])` does. -/
def pushEntry (m : List (String × List Task)) (key : String) (t : Task) :
    List (String × List Task) :=
  match m with
  | [] => [(key, [t])]
  | (k, ts) :: rest =>
    if k = key then (k, ts ++ [t]) :: rest else (k, ts) :: pushEntry rest key t

/-- `TaskProcessorService.groupByAssignee`: a task with no assignees goes
once into the sentinel "unassigned" bucket; otherwise it goes into the
bucket of each of its assignees. -/
def groupByAssignee (tasks : List Task) : List (String × List Task) :=
  tasks.foldl
    (fun m t =>
      if t.assignees.length = 0 then pushEntry m "unassigned" t
      else t.assignees.foldl (fun m a => pushEntry m a t) m)
    []

/-- The list stored under a key of the grouped map (`[]` when absent). -/
def lookupGroup (m : List (String × List Task)) (key : String) : List Task :=
  match m with
  | [] => []
  | (k, ts) :: rest => if k = key then ts else lookupGroup rest key

/-- The sum of all group sizes of a grouped map. -/
def groupSizes (m : List (String × List Task)) : Nat :=
  (m.map (fun e => e.2.length)).sum

/-- `TaskProcessorService.filterByDateRange`: drop a task when a start
bound is present and `createdAt` is strictly before it, or when an end
bound is present and `createdAt` is strictly after it. -/
def filterByDateRange (tasks : List Task) (startDate endDate : Option Int) :
    List Task :=
  tasks.filter (fun task =>
    if (match startDate with
        | some s => decide (task.createdAt < s)
        | none => false) then false
    else if (match endDate with
        | some e => decide (e < task.createdAt)
        | none => false) then false
    else true)

/-- A concrete OPEN task whose due date is the second calendar day after
the epoch, used to exhibit the clock dependence of `isOverdue`. -/
def clockSampleTask : Task :=
  { id := "1", githubId := "gh-1", title := "sample", number := 1,
    type := TaskType.ISSUE, state := TaskState.OPEN, status := none,
    repository := none, assignees := [], priority := none,
    createdAt := 0, updatedAt := 0, dueDate := some msPerDay,
    addedToProjectAt := none }

/-- A concrete task with an empty assignee set. -/
def genuinelyUnassignedTask : Task :=
  { id := "2", githubId := "gh-2", title := "nobody", number := 2,
    type := TaskType.ISSUE, state := TaskState.OPEN, status := none,
    repository := none, assignees := [], priority := none,
    createdAt := 0, updatedAt := 0, dueDate := none,
    addedToProjectAt := none }

/-- A concrete task assigned to a user literally named "unassigned". -/
def literallyNamedUserTask : Task :=
  { id := "3", githubId := "gh-3", title := "somebody", number := 3,
    type := TaskType.ISSUE, state := TaskState.OPEN, status := none,
    repository := none, assignees := ["unassigned"], priority := none,
    createdAt := 0, updatedAt := 0, dueDate := none,
    addedToProjectAt := none }

end GHMonitoring

namespace GHMonitoring

/-- The monotone bridge between day-start truncation and day indices. -/
theorem startOfDay_le_iff (a b : Int) : startOfDay a ≤ startOfDay b ↔ dayIndex a ≤ dayIndex b := by
  unfold startOfDay
  constructor
  · intro h
    have hpos : (0 : Int) < msPerDay := by decide
    exact le_of_mul_le_mul_left h hpos
  · intro h
    have hpos : (0 : Int) ≤ msPerDay := by decide
    exact mul_le_mul_of_nonneg_left h hpos

/-- C1: `isOverdue` is false when `dueDate` is absent and when the state is
CLOSED or MERGED; otherwise it is true exactly when the calendar day of the
due date is at or before the calendar day of `now` — in particular a task
due at any instant of today's calendar day is already overdue. -/
theorem isOverdue_characterisation (now : Int) (t : Task) :
    (t.dueDate = none → isOverdue now t = false) ∧
    (t.state = TaskState.CLOSED ∨ t.state = TaskState.MERGED → isOverdue now t = false) ∧
    (∀ d, t.dueDate = some d →
      t.state ≠ TaskState.CLOSED → t.state ≠ TaskState.MERGED →
      (isOverdue now t = true ↔ dayIndex d ≤ dayIndex now)) := by
  refine ⟨?_, ?_, ?_⟩
  · intro h
    simp [isOverdue, h]
  · intro h
    cases hd : t.dueDate with
    | none => simp [isOverdue, hd]
    | some d => simp [isOverdue, hd, h]
  · intro d hd hC hM
    have hcm : ¬(t.state = TaskState.CLOSED ∨ t.state = TaskState.MERGED) := by
      rintro (h | h) <;> [exact hC h; exact hM h]
    simp [isOverdue, hd, hcm, startOfDay_le_iff]

/-- The open and closed filters split every list of tasks exactly. -/
theorem length_filter_state_split (tasks : List Task) :
    (tasks.filter (fun t => t.state == TaskState.OPEN)).length
      + (tasks.filter (fun t => t.state == TaskState.CLOSED
          || t.state == TaskState.MERGED)).length
      = tasks.length := by
  induction tasks with
  | nil => rfl
  | cons t ts ih =>
    cases h : t.state <;> simp [List.filter_cons, h] <;> omega

/-- C4: `total` is the collection size, `open` counts the OPEN tasks,
`closed` counts the CLOSED-or-MERGED tasks, and since every state is one
of the three values, `open + closed = total`. -/
theorem calculateStats_state_counts (now : Int) (tasks : List Task) :
    (calculateStats now tasks).total = tasks.length ∧
    (calculateStats now tasks).«open»
        = (tasks.filter (fun t => t.state == TaskState.OPEN)).length ∧
    (calculateStats now tasks).closed
        = (tasks.filter (fun t => t.state == TaskState.CLOSED
            || t.state == TaskState.MERGED)).length ∧
    (calculateStats now tasks).«open» + (calculateStats now tasks).closed
        = (calculateStats now tasks).total :=
  ⟨rfl, rfl, rfl, length_filter_state_split tasks⟩

/-- C9: every count field of a computed `TaskStats` equals the length of
its companion list. -/
theorem calculateStats_counts_match_lists (now : Int) (tasks : List Task) :
    (calculateStats now tasks).overdue
        = (calculateStats now tasks).overdueList.length ∧
    (calculateStats now tasks).noTechHandoffETA
        = (calculateStats now tasks).noTechHandoffETAList.length ∧
    (calculateStats now tasks).noTechHandoffETAByPriority.p0
        = (calculateStats now tasks).noTechHandoffETAByPriority.p0List.length ∧
    (calculateStats now tasks).noTechHandoffETAByPriority.p1
        = (calculateStats now tasks).noTechHandoffETAByPriority.p1List.length ∧
    (calculateStats now tasks).noTechHandoffETAByPriority.noPriority
        = (calculateStats now tasks).noTechHandoffETAByPriority.noPriorityList.length ∧
    (calculateStats now tasks).unassignedByPriority.p0
        = (calculateStats now tasks).unassignedByPriority.p0List.length ∧
    (calculateStats now tasks).unassignedByPriority.p1
        = (calculateStats now tasks).unassignedByPriority.p1List.length ∧
    (calculateStats now tasks).unassignedByPriority.noPriority
        = (calculateStats now tasks).unassignedByPriority.noPriorityList.length :=
  ⟨rfl, rfl, rfl, rfl, rfl, rfl, rfl, rfl⟩

/-- A priority string whose uppercasing is "P0" is not empty. -/
theorem ne_empty_of_jsToUpper_P0 (s : String) (h : jsToUpper s = "P0") : s ≠ "" := by
  intro he
  subst he
  exact absurd h (by decide)

/-- A priority string whose uppercasing is "P1" is not empty. -/
theorem ne_empty_of_jsToUpper_P1 (s : String) (h : jsToUpper s = "P1") : s ≠ "" := by
  intro he
  subst he
  exact absurd h (by decide)

/-- Every task satisfies exactly one of the three no-ETA priority filters. -/
theorem noETA_pred_trichotomy (t : Task) :
    (noETAP0 t = true ∧ noETAP1 t = false ∧ noETANoPriority t = false) ∨
    (noETAP0 t = false ∧ noETAP1 t = true ∧ noETANoPriority t = false) ∨
    (noETAP0 t = false ∧ noETAP1 t = false ∧ noETANoPriority t = true) := by
  cases hp : t.priority with
  | none =>
    right; right
    simp [noETAP0, noETAP1, noETANoPriority, hp]
  | some s =>
    by_cases h0 : jsToUpper s = "P0"
    · left
      have h1 : jsToUpper s ≠ "P1" := by rw [h0]; decide
      simp [noETAP0, noETAP1, noETANoPriority, hp, h0, h1,
        ne_empty_of_jsToUpper_P0 s h0]
    · by_cases h1 : jsToUpper s = "P1"
      · right; left
        simp [noETAP0, noETAP1, noETANoPriority, hp, h0, h1,
          ne_empty_of_jsToUpper_P1 s h1]
      · right; right
        simp [noETAP0, noETAP1, noETANoPriority, hp, h0, h1]

/-- The unassigned-split filters coincide with the no-ETA-split filters
(the source duplicates the lambdas verbatim). -/
theorem unassigned_preds_eq (t : Task) :
    unassignedP0 t = noETAP0 t ∧ unassignedP1 t = noETAP1 t ∧
    unassignedNoPriority t = noETANoPriority t :=
  ⟨rfl, rfl, rfl⟩

/-- Three pairwise-exclusive, jointly-exhaustive filters split a list's
length exactly. -/
theorem length_filter_tripartition {α : Type} (p q r : α → Bool) (l : List α)
    (h : ∀ a, (p a = true ∧ q a = false ∧ r a = false) ∨
              (p a = false ∧ q a = true ∧ r a = false) ∨
              (p a = false ∧ q a = false ∧ r a = true)) :
    (l.filter p).length + (l.filter q).length + (l.filter r).length = l.length := by
  induction l with
  | nil => rfl
  | cons a l ih =>
    rcases h a with ⟨h1, h2, h3⟩ | ⟨h1, h2, h3⟩ | ⟨h1, h2, h3⟩ <;>
      simp [List.filter_cons, h1, h2, h3] <;> omega

/-- A member of a list split by three pairwise-exclusive filters lands in
exactly one of the three filtered lists. -/
theorem mem_filter_tripartition {α : Type} (p q r : α → Bool) (l : List α) (a : α)
    (ha : a ∈ l)
    (h : (p a = true ∧ q a = false ∧ r a = false) ∨
         (p a = false ∧ q a = true ∧ r a = false) ∨
         (p a = false ∧ q a = false ∧ r a = true)) :
    (a ∈ l.filter p ∧ a ∉ l.filter q ∧ a ∉ l.filter r) ∨
    (a ∉ l.filter p ∧ a ∈ l.filter q ∧ a ∉ l.filter r) ∨
    (a ∉ l.filter p ∧ a ∉ l.filter q ∧ a ∈ l.filter r) := by
  rcases h with ⟨h1, h2, h3⟩ | ⟨h1, h2, h3⟩ | ⟨h1, h2, h3⟩
  · exact Or.inl ⟨List.mem_filter.mpr ⟨ha, h1⟩,
      fun hm => by simpa [h2] using (List.mem_filter.mp hm).2,
      fun hm => by simpa [h3] using (List.mem_filter.mp hm).2⟩
  · exact Or.inr (Or.inl ⟨fun hm => by simpa [h1] using (List.mem_filter.mp hm).2,
      List.mem_filter.mpr ⟨ha, h2⟩,
      fun hm => by simpa [h3] using (List.mem_filter.mp hm).2⟩)
  · exact Or.inr (Or.inr ⟨fun hm => by simpa [h1] using (List.mem_filter.mp hm).2,
      fun hm => by simpa [h2] using (List.mem_filter.mp hm).2,
      List.mem_filter.mpr ⟨ha, h3⟩⟩)

/-- The no-ETA bucket read off the code agrees with the spec's shared
classification function. -/
theorem noETABucket_eq_spec (t : Task) :
    noETABucket t = specPriorityBucket t.priority := by
  cases hp : t.priority with
  | none => simp [noETABucket, specPriorityBucket, noETAP0, noETAP1, hp]
  | some s =>
    by_cases h0 : jsToUpper s = "P0"
    · simp [noETABucket, specPriorityBucket, noETAP0, hp, h0]
    · by_cases h1 : jsToUpper s = "P1"
      · simp [noETABucket, specPriorityBucket, noETAP0, noETAP1, hp, h0, h1]
      · simp [noETABucket, specPriorityBucket, noETAP0, noETAP1, hp, h0, h1]

/-- C3: one classification — the bucket a task gets in the
no-ETA-by-priority split always equals the bucket it gets in the
unassigned-by-priority split, and both equal the spec's shared
case-insensitive P0/P1/NO_PRIORITY classification of its priority. -/
theorem priorityBucket_shared (t : Task) :
    noETABucket t = unassignedBucket t ∧
    noETABucket t = specPriorityBucket t.priority ∧
    unassignedBucket t = specPriorityBucket t.priority := by
  have h1 : noETABucket t = unassignedBucket t := rfl
  have h2 := noETABucket_eq_spec t
  exact ⟨h1, h2, h1 ▸ h2⟩

/-- C2: the no-ETA list is exactly the OPEN tasks without a due date in
original order (a sublist of the collection), its three priority sublists
partition it — each member lies in exactly one and the sizes sum to the
total — and the unassigned-by-priority sublists partition the OPEN
zero-assignee tasks the same way. -/
theorem calculateStats_gap_partitions (now : Int) (tasks : List Task) :
    (calculateStats now tasks).noTechHandoffETAList
        = tasks.filter (fun t => t.state == TaskState.OPEN && t.dueDate.isNone) ∧
    (calculateStats now tasks).noTechHandoffETAList.Sublist tasks ∧
    (calculateStats now tasks).noTechHandoffETAByPriority.p0List.length
        + (calculateStats now tasks).noTechHandoffETAByPriority.p1List.length
        + (calculateStats now tasks).noTechHandoffETAByPriority.noPriorityList.length
        = (calculateStats now tasks).noTechHandoffETA ∧
    (∀ t ∈ (calculateStats now tasks).noTechHandoffETAList,
      (t ∈ (calculateStats now tasks).noTechHandoffETAByPriority.p0List ∧
        t ∉ (calculateStats now tasks).noTechHandoffETAByPriority.p1List ∧
        t ∉ (calculateStats now tasks).noTechHandoffETAByPriority.noPriorityList) ∨
      (t ∉ (calculateStats now tasks).noTechHandoffETAByPriority.p0List ∧
        t ∈ (calculateStats now tasks).noTechHandoffETAByPriority.p1List ∧
        t ∉ (calculateStats now tasks).noTechHandoffETAByPriority.noPriorityList) ∨
      (t ∉ (calculateStats now tasks).noTechHandoffETAByPriority.p0List ∧
        t ∉ (calculateStats now tasks).noTechHandoffETAByPriority.p1List ∧
        t ∈ (calculateStats now tasks).noTechHandoffETAByPriority.noPriorityList)) ∧
    (calculateStats now tasks).unassignedByPriority.p0List.length
        + (calculateStats now tasks).unassignedByPriority.p1List.length
        + (calculateStats now tasks).unassignedByPriority.noPriorityList.length
        = (tasks.filter (fun t => t.state == TaskState.OPEN
            && t.assignees.length == 0)).length ∧
    (∀ t ∈ tasks.filter (fun t => t.state == TaskState.OPEN
            && t.assignees.length == 0),
      (t ∈ (calculateStats now tasks).unassignedByPriority.p0List ∧
        t ∉ (calculateStats now tasks).unassignedByPriority.p1List ∧
        t ∉ (calculateStats now tasks).unassignedByPriority.noPriorityList) ∨
      (t ∉ (calculateStats now tasks).unassignedByPriority.p0List ∧
        t ∈ (calculateStats now tasks).unassignedByPriority.p1List ∧
        t ∉ (calculateStats now tasks).unassignedByPriority.noPriorityList) ∨
      (t ∉ (calculateStats now tasks).unassignedByPriority.p0List ∧
        t ∉ (calculateStats now tasks).unassignedByPriority.p1List ∧
        t ∈ (calculateStats now tasks).unassignedByPriority.noPriorityList)) := by
  refine ⟨rfl, List.filter_sublist tasks, ?_, ?_, ?_, ?_⟩
  · exact length_filter_tripartition _ _ _ _ noETA_pred_trichotomy
  · intro t ht
    exact mem_filter_tripartition noETAP0 noETAP1 noETANoPriority _ t ht
      (noETA_pred_trichotomy t)
  · exact length_filter_tripartition unassignedP0 unassignedP1 unassignedNoPriority _
      (fun t => noETA_pred_trichotomy t)
  · intro t ht
    exact mem_filter_tripartition unassignedP0 unassignedP1 unassignedNoPriority _ t ht
      (noETA_pred_trichotomy t)

/-- C5 (failing input): the clock reading matters.  The source obtains
`now` from `new Date()` inside `isOverdue` instead of taking it as a
parameter, so the same OPEN task due on day 1 is not overdue when the
clock reads day 0 but is overdue when it reads day 2, and
`calculateStats` on the identical, unmutated one-task collection returns
different `TaskStats` at the two clock readings. -/
theorem isOverdue_reads_the_clock :
    isOverdue 0 clockSampleTask = false ∧
    isOverdue (2 * msPerDay) clockSampleTask = true ∧
    calculateStats 0 [clockSampleTask]
      ≠ calculateStats (2 * msPerDay) [clockSampleTask] := by
  refine ⟨by decide, by decide, by decide⟩

/-- C10: the sentinel key is an ordinary map key — a genuinely unassigned
task and a task assigned to a user literally named "unassigned" end up
together in the single "unassigned" bucket. -/
theorem groupByAssignee_sentinel_collision :
    groupByAssignee [genuinelyUnassignedTask, literallyNamedUserTask]
      = [("unassigned", [genuinelyUnassignedTask, literallyNamedUserTask])] := by
  decide

/-- One map push grows the total group size by exactly one. -/
theorem groupSizes_pushEntry (m : List (String × List Task)) (k : String) (t : Task) :
    groupSizes (pushEntry m k t) = groupSizes m + 1 := by
  induction m with
  | nil => simp [pushEntry, groupSizes]
  | cons e rest ih =>
    obtain ⟨k0, ts⟩ := e
    by_cases h : k0 = k <;> simp [pushEntry, h, groupSizes] at ih ⊢ <;> omega

/-- Pushing one task under each of a list of assignees grows the total
group size by the number of assignees. -/
theorem groupSizes_foldl_push (as : List String) (t : Task)
    (m : List (String × List Task)) :
    groupSizes (as.foldl (fun m a => pushEntry m a t) m)
      = groupSizes m + as.length := by
  induction as generalizing m with
  | nil => simp
  | cons a as ih => simp [List.foldl_cons, ih, groupSizes_pushEntry]; omega

/-- The fold of `groupByAssignee` grows the total group size by
`max 1 assignees.length` per task. -/
theorem groupSizes_groupByAssignee_go (tasks : List Task)
    (m : List (String × List Task)) :
    groupSizes (tasks.foldl
        (fun m t =>
          if t.assignees.length = 0 then pushEntry m "unassigned" t
          else t.assignees.foldl (fun m a => pushEntry m a t) m)
        m)
      = groupSizes m + (tasks.map (fun t => max 1 t.assignees.length)).sum := by
  induction tasks generalizing m with
  | nil => simp
  | cons t ts ih =>
    rw [List.foldl_cons]
    by_cases h : t.assignees.length = 0
    · rw [if_pos h, ih, groupSizes_pushEntry]
      simp [h]
      omega
    · rw [if_neg h, ih, groupSizes_foldl_push]
      have hmax : max 1 t.assignees.length = t.assignees.length :=
        Nat.max_eq_right (Nat.one_le_iff_ne_zero.mpr h)
      simp [hmax]
      omega

/-- A task just pushed under a key is in that key's group. -/
theorem mem_lookupGroup_pushEntry_self (m : List (String × List Task))
    (k : String) (t : Task) : t ∈ lookupGroup (pushEntry m k t) k := by
  induction m with
  | nil => simp [pushEntry, lookupGroup]
  | cons e rest ih =>
    obtain ⟨k0, ts⟩ := e
    by_cases h : k0 = k <;> simp [pushEntry, lookupGroup, h, ih]

/-- A push never removes a task from any group. -/
theorem mem_lookupGroup_pushEntry_mono (m : List (String × List Task))
    (k k' : String) (t t' : Task) (h : t ∈ lookupGroup m k) :
    t ∈ lookupGroup (pushEntry m k' t') k := by
  induction m with
  | nil => simp [lookupGroup] at h
  | cons e rest ih =>
    obtain ⟨k0, ts⟩ := e
    by_cases h0 : k0 = k'
    · by_cases h1 : k0 = k
      · simp only [pushEntry, if_pos h0, lookupGroup, if_pos h1] at h ⊢
        exact List.mem_append_left _ h
      · simp only [pushEntry, if_pos h0, lookupGroup, if_neg h1] at h ⊢
        exact h
    · by_cases h1 : k0 = k
      · simp only [pushEntry, if_neg h0, lookupGroup, if_pos h1] at h ⊢
        exact h
      · simp only [pushEntry, if_neg h0, lookupGroup, if_neg h1] at h ⊢
        exact ih h

/-- A fold of pushes never removes a task from any group. -/
theorem mem_lookupGroup_foldl_push_mono (as : List String) (t' : Task)
    (m : List (String × List Task)) (k : String) (t : Task)
    (h : t ∈ lookupGroup m k) :
    t ∈ lookupGroup (as.foldl (fun m a => pushEntry m a t') m) k := by
  induction as generalizing m with
  | nil => exact h
  | cons a as ih => exact ih _ (mem_lookupGroup_pushEntry_mono m k a t t' h)

/-- After pushing a task under every assignee in a list, it is in each
listed assignee's group. -/
theorem mem_lookupGroup_foldl_push_self (as : List String) (t : Task)
    (m : List (String × List Task)) (a : String) (ha : a ∈ as) :
    t ∈ lookupGroup (as.foldl (fun m b => pushEntry m b t) m) a := by
  induction as generalizing m with
  | nil => cases ha
  | cons b bs ih =>
    rcases List.mem_cons.mp ha with rfl | ha'
    · exact mem_lookupGroup_foldl_push_mono bs t _ a t
        (mem_lookupGroup_pushEntry_self m a t)
    · exact ih _ ha'

/-- The fold of `groupByAssignee` never removes a task from any group. -/
theorem mem_lookupGroup_groupByAssignee_go_mono (tasks : List Task)
    (m : List (String × List Task)) (k : String) (t : Task)
    (h : t ∈ lookupGroup m k) :
    t ∈ lookupGroup (tasks.foldl
        (fun m u =>
          if u.assignees.length = 0 then pushEntry m "unassigned" u
          else u.assignees.foldl (fun m a => pushEntry m a u) m)
        m) k := by
  induction tasks generalizing m with
  | nil => exact h
  | cons u ts ih =>
    rw [List.foldl_cons]
    apply ih
    by_cases h0 : u.assignees.length = 0
    · simpa [h0] using mem_lookupGroup_pushEntry_mono m k "unassigned" t u h
    · simpa [h0] using mem_lookupGroup_foldl_push_mono u.assignees u m k t h

/-- Each processed task reaches its own buckets, whatever map the fold
started from. -/
theorem mem_lookupGroup_groupByAssignee_go (tasks : List Task)
    (m : List (String × List Task)) (t : Task) (ht : t ∈ tasks) :
    (t.assignees = [] →
      t ∈ lookupGroup (tasks.foldl
          (fun m u =>
            if u.assignees.length = 0 then pushEntry m "unassigned" u
            else u.assignees.foldl (fun m a => pushEntry m a u) m)
          m) "unassigned") ∧
    (∀ a ∈ t.assignees,
      t ∈ lookupGroup (tasks.foldl
          (fun m u =>
            if u.assignees.length = 0 then pushEntry m "unassigned" u
            else u.assignees.foldl (fun m a => pushEntry m a u) m)
          m) a) := by
  induction tasks generalizing m with
  | nil => cases ht
  | cons u ts ih =>
    rcases List.mem_cons.mp ht with rfl | ht'
    · constructor
      · intro he
        rw [List.foldl_cons]
        apply mem_lookupGroup_groupByAssignee_go_mono
        simp only [he, List.length_nil, if_pos rfl]
        exact mem_lookupGroup_pushEntry_self m "unassigned" t
      · intro a ha
        rw [List.foldl_cons]
        apply mem_lookupGroup_groupByAssignee_go_mono
        have hne : ¬ t.assignees.length = 0 := by
          intro h0
          rw [List.length_eq_zero] at h0
          rw [h0] at ha
          cases ha
        simp only [if_neg hne]
        exact mem_lookupGroup_foldl_push_self t.assignees t m a ha
    · exact ih _ ht'

/-- C7: the total group size of `groupByAssignee` is the sum over the
collection of `max 1 assignees.length`; a task with no assignees lands in
the sentinel "unassigned" bucket and a task with assignees lands in each
assignee's bucket; an empty collection yields an empty mapping. -/
theorem groupByAssignee_fanout (tasks : List Task) :
    groupSizes (groupByAssignee tasks)
        = (tasks.map (fun t => max 1 t.assignees.length)).sum ∧
    groupByAssignee ([] : List Task) = [] ∧
    (∀ t ∈ tasks, t.assignees = [] →
      t ∈ lookupGroup (groupByAssignee tasks) "unassigned") ∧
    (∀ t ∈ tasks, ∀ a ∈ t.assignees,
      t ∈ lookupGroup (groupByAssignee tasks) a) := by
  refine ⟨?_, rfl, ?_, ?_⟩
  · rw [groupByAssignee]
    simpa [groupSizes] using groupSizes_groupByAssignee_go tasks []
  · intro t ht he
    exact (mem_lookupGroup_groupByAssignee_go tasks [] t ht).1 he
  · intro t ht a ha
    exact (mem_lookupGroup_groupByAssignee_go tasks [] t ht).2 a ha

/-- The early-return predicate of `filterByDateRange` equals the inclusive
bounds predicate. -/
theorem dateRange_pred_eq (startDate endDate : Option Int) (t : Task) :
    (if (match startDate with
        | some s => decide (t.createdAt < s)
        | none => false) then false
     else if (match endDate with
        | some e => decide (e < t.createdAt)
        | none => false) then false
     else true)
    = ((match startDate with
        | none => true
        | some s => decide (s ≤ t.createdAt)) &&
       (match endDate with
        | none => true
        | some e => decide (t.createdAt ≤ e))) := by
  cases startDate with
  | none =>
    cases endDate with
    | none => simp
    | some e =>
      by_cases h : t.createdAt ≤ e
      · have h' : ¬ (e < t.createdAt) := by omega
        simp [h, h']
      · have h' : e < t.createdAt := by omega
        simp [h, h']
  | some s =>
    cases endDate with
    | none =>
      by_cases h : s ≤ t.createdAt
      · have h' : ¬ (t.createdAt < s) := by omega
        simp [h, h']
      · have h' : t.createdAt < s := by omega
        simp [h, h']
    | some e =>
      by_cases h : s ≤ t.createdAt
      · have h' : ¬ (t.createdAt < s) := by omega
        by_cases h2 : t.createdAt ≤ e
        · have h2' : ¬ (e < t.createdAt) := by omega
          simp [h, h', h2, h2']
        · have h2' : e < t.createdAt := by omega
          simp [h, h', h2, h2']
      · have h' : t.createdAt < s := by omega
        simp [h, h']

/-- The inclusive bounds predicate, read as a proposition. -/
theorem dateRange_pred_iff (startDate endDate : Option Int) (t : Task) :
    ((match startDate with
      | none => true
      | some s => decide (s ≤ t.createdAt)) &&
     (match endDate with
      | none => true
      | some e => decide (t.createdAt ≤ e))) = true
    ↔ ((∀ s, startDate = some s → s ≤ t.createdAt) ∧
       (∀ e, endDate = some e → t.createdAt ≤ e)) := by
  cases startDate <;> cases endDate <;> simp

/-- C8: `filterByDateRange` retains exactly the tasks whose `createdAt`
is at or after the start bound (when present) and at or before the end
bound (when present) — boundary-inclusive, absent bound unbounded — and
the retained tasks keep their original order (the result is a sublist). -/
theorem filterByDateRange_spec (tasks : List Task) (startDate endDate : Option Int) :
    filterByDateRange tasks startDate endDate
        = tasks.filter (fun t =>
            (match startDate with
             | none => true
             | some s => decide (s ≤ t.createdAt)) &&
            (match endDate with
             | none => true
             | some e => decide (t.createdAt ≤ e))) ∧
    (filterByDateRange tasks startDate endDate).Sublist tasks ∧
    (∀ t ∈ tasks,
      (t ∈ filterByDateRange tasks startDate endDate ↔
        (∀ s, startDate = some s → s ≤ t.createdAt) ∧
        (∀ e, endDate = some e → t.createdAt ≤ e))) := by
  have hfilter : filterByDateRange tasks startDate endDate
      = tasks.filter (fun t =>
          (match startDate with
           | none => true
           | some s => decide (s ≤ t.createdAt)) &&
          (match endDate with
           | none => true
           | some e => decide (t.createdAt ≤ e))) :=
    List.filter_congr (fun t _ => dateRange_pred_eq startDate endDate t)
  refine ⟨hfilter, List.filter_sublist tasks, ?_⟩
  intro t ht
  rw [hfilter, List.mem_filter]
  constructor
  · rintro ⟨-, hp⟩
    exact (dateRange_pred_iff startDate endDate t).mp hp
  · intro hp
    exact ⟨ht, (dateRange_pred_iff startDate endDate t).mpr hp⟩

/-- The due-date comparator returns 0 on tasks with equal due-date keys. -/
theorem dueCmp_eq_zero_of_key_eq (asc : Bool) (a b : Task)
    (h : a.dueDate = b.dueDate) : dueCmp asc a b = 0 := by
  cases hb : b.dueDate <;> rw [hb] at h <;> cases asc <;>
    simp [dueCmp, h, hb]

/-- The due-date comparator is total. -/
theorem dueLE_total (asc : Bool) (a b : Task) :
    dueCmp asc a b ≤ 0 ∨ dueCmp asc b a ≤ 0 := by
  cases ha : a.dueDate <;> cases hb : b.dueDate <;> cases asc <;>
    simp [dueCmp, ha, hb] <;> omega

/-- The due-date comparator is transitive. -/
theorem dueLE_trans (asc : Bool) (a b c : Task)
    (h1 : dueCmp asc a b ≤ 0) (h2 : dueCmp asc b c ≤ 0) :
    dueCmp asc a c ≤ 0 := by
  cases ha : a.dueDate <;> cases hb : b.dueDate <;> cases hc : c.dueDate <;>
    cases asc <;> simp [dueCmp, ha, hb, hc] at h1 h2 ⊢ <;> omega

/-- What a nonpositive comparator value says about the two tasks: an
undated task is never (strictly) before a dated one, and dated tasks are
ordered by timestamp in the requested direction. -/
theorem dueLE_elim (asc : Bool) (a b : Task) (h : dueCmp asc a b ≤ 0) :
    (a.dueDate = none → b.dueDate = none) ∧
    (∀ x y, a.dueDate = some x → b.dueDate = some y →
      ((asc = true → x ≤ y) ∧ (asc = false → y ≤ x))) := by
  cases ha : a.dueDate <;> cases hb : b.dueDate <;> cases asc <;>
    simp [dueCmp, ha, hb] at h ⊢ <;> omega

/-- Inserting a task with key `d` puts it in front of the `d`-filtered
residue: later-inserted (earlier-input) tasks precede their equals. -/
theorem filter_orderedInsert_key_eq (asc : Bool) (x : Task) (d : Option Int)
    (hx : x.dueDate = d) (l : List Task) :
    (List.orderedInsert (fun a b => dueCmp asc a b ≤ 0) x l).filter
        (fun t => t.dueDate == d)
      = x :: l.filter (fun t => t.dueDate == d) := by
  induction l with
  | nil => simp [List.orderedInsert, List.filter_cons, hx]
  | cons c l ih =>
    simp only [List.orderedInsert]
    by_cases hr : dueCmp asc x c ≤ 0
    · rw [if_pos hr, List.filter_cons_of_pos (by simp [hx])]
    · rw [if_neg hr]
      have hc : ¬ c.dueDate = d := fun hcd =>
        hr (le_of_eq (dueCmp_eq_zero_of_key_eq asc x c (hx.trans hcd.symm)))
      rw [List.filter_cons_of_neg (by simp [hc]), ih,
        List.filter_cons_of_neg (by simp [hc])]

/-- Inserting a task with a different key leaves the `d`-filter unchanged. -/
theorem filter_orderedInsert_key_ne (asc : Bool) (x : Task) (d : Option Int)
    (hx : ¬ x.dueDate = d) (l : List Task) :
    (List.orderedInsert (fun a b => dueCmp asc a b ≤ 0) x l).filter
        (fun t => t.dueDate == d)
      = l.filter (fun t => t.dueDate == d) := by
  induction l with
  | nil => simp [List.orderedInsert, List.filter_cons, hx]
  | cons c l ih =>
    simp only [List.orderedInsert]
    by_cases hr : dueCmp asc x c ≤ 0
    · rw [if_pos hr, List.filter_cons_of_neg (by simp [hx])]
    · rw [if_neg hr]
      by_cases hc : c.dueDate = d
      · rw [List.filter_cons_of_pos (by simp [hc]), ih,
          List.filter_cons_of_pos (by simp [hc])]
      · rw [List.filter_cons_of_neg (by simp [hc]), ih,
          List.filter_cons_of_neg (by simp [hc])]

/-- Stability of `sortByDueDate`: for every due-date key (including
"absent"), the tasks carrying that key come out in their input order. -/
theorem sortByDueDate_filter_key (asc : Bool) (tasks : List Task) (d : Option Int) :
    (sortByDueDate tasks asc).filter (fun t => t.dueDate == d)
      = tasks.filter (fun t => t.dueDate == d) := by
  induction tasks with
  | nil => rfl
  | cons x xs ih =>
    have hstep : sortByDueDate (x :: xs) asc
        = List.orderedInsert (fun a b => dueCmp asc a b ≤ 0) x
            (sortByDueDate xs asc) := rfl
    rw [hstep]
    by_cases hx : x.dueDate = d
    · rw [filter_orderedInsert_key_eq asc x d hx, ih,
        List.filter_cons_of_pos (by simp [hx])]
    · rw [filter_orderedInsert_key_ne asc x d hx, ih,
        List.filter_cons_of_neg (by simp [hx])]

/-- C6: `sortByDueDate` returns a permutation of its (unmutated) input in
which no dated task follows an undated one, dated tasks are ordered by
due date in the requested direction, the sort is stable (every equal-key
class, including all undated tasks, keeps its input order), and the
omitted flag defaults to ascending. -/
theorem sortByDueDate_spec (ascending : Bool) (tasks : List Task) :
    (sortByDueDate tasks ascending).Perm tasks ∧
    List.Pairwise (fun a b =>
      (a.dueDate = none → b.dueDate = none) ∧
      (∀ x y, a.dueDate = some x → b.dueDate = some y →
        ((ascending = true → x ≤ y) ∧ (ascending = false → y ≤ x))))
      (sortByDueDate tasks ascending) ∧
    (∀ d : Option Int,
      (sortByDueDate tasks ascending).filter (fun t => t.dueDate == d)
        = tasks.filter (fun t => t.dueDate == d)) ∧
    sortByDueDate tasks = sortByDueDate tasks true := by
  refine ⟨List.perm_insertionSort _ tasks, ?_,
    fun d => sortByDueDate_filter_key ascending tasks d, rfl⟩
  haveI : IsTotal Task (fun a b => dueCmp ascending a b ≤ 0) :=
    ⟨fun a b => dueLE_total ascending a b⟩
  haveI : IsTrans Task (fun a b => dueCmp ascending a b ≤ 0) :=
    ⟨fun a b c => dueLE_trans ascending a b c⟩
  have hs := List.sorted_insertionSort (fun a b => dueCmp ascending a b ≤ 0) tasks
  exact List.Pairwise.imp (fun h => dueLE_elim ascending _ _ h) hs

end GHMonitoring
